import Mathlib

/-!
Shallow embedding of the vaqt time library (`src/time.c`, `vaqt.h`, and the
duration translation unit).

Modelling conventions:
* C `int64_t` and `int` values are modelled as `Int`.  Where the C code
  performs arithmetic whose result is reinterpreted as a signed 64-bit value
  (unsigned `uint64_t` computation stored into an `int64_t` field, or
  two's-complement overflow of `int64_t` arithmetic), the reduction modulo
  2^64 is made explicit with `wrap64`; conversion to `int32_t` uses `wrap32`;
  conversion to `uint64_t` uses `toU64`.  Because reduction modulo 2^64 is a
  ring homomorphism, a chain of C operations that wrap at every step is
  modelled by exact `Int` arithmetic followed by a single `wrap64`.
* C truncating division and remainder on signed operands are `Int.tdiv` and
  `Int.tmod`; `uint64_t` division and remainder are `Nat` division/modulo.
* The C comparison `nsec >= 1e9` compares an `int64_t` against the double
  `1e9`; every value that reaches that comparison is far below 2^53, where
  the conversion to double is exact, so it is modelled as the integer
  comparison against 1000000000.
-/

namespace Vaqt

/-- Seconds in a minute (`seconds_per_minute` in time.c). -/
def seconds_per_minute : Int := 60

/-- Seconds in an hour. -/
def seconds_per_hour : Int := 60 * seconds_per_minute

/-- Seconds in a day. -/
def seconds_per_day : Int := 24 * seconds_per_hour

/-- Days in a full 400-year Gregorian cycle (303 regular + 97 leap years). -/
def days_per_400_years : Nat := 365 * 400 + 97

/-- Days in a 100-year cycle (76 regular + 24 leap years). -/
def days_per_100_years : Nat := 365 * 100 + 24

/-- Days in a 4-year cycle (3 regular + 1 leap year). -/
def days_per_4_years : Nat := 365 * 4 + 1

/-- The absolute zero year for internal calculations (year 1 mod 400). -/
def absolute_zero_year : Int := -292277022399

/-- Offset from absolute time to the internal representation. -/
def absolute_to_internal : Int := -9223371966579724800

/-- Offset from the internal representation to absolute time. -/
def internal_to_absolute : Int := -absolute_to_internal

/-- Unix epoch (1970-01-01) offset from internal zero. -/
def unix_to_internal : Int := (1969 * 365 + 1969 / 4 - 1969 / 100 + 1969 / 400) * seconds_per_day

/-- Offset from internal zero back to the Unix epoch. -/
def internal_to_unix : Int := -unix_to_internal

/-- One second in nanoseconds (`TIME_SECOND`). -/
def TIME_SECOND : Int := 1000000000

/-- `DURATION_MIN` = INT64_MIN. -/
def DURATION_MIN : Int := -9223372036854775808

/-- `DURATION_MAX` = INT64_MAX. -/
def DURATION_MAX : Int := 9223372036854775807

/-- Reinterpret an integer as a two's-complement signed 64-bit value:
the unique representative of its class modulo 2^64 in [-2^63, 2^63). -/
def wrap64 (x : Int) : Int :=
  (x + 9223372036854775808) % 18446744073709551616 - 9223372036854775808

/-- Reinterpret an integer as a two's-complement signed 32-bit value. -/
def wrap32 (x : Int) : Int :=
  (x + 2147483648) % 4294967296 - 2147483648

/-- Conversion to `uint64_t`: the value modulo 2^64, as a natural number. -/
def toU64 (x : Int) : Nat := (x % 18446744073709551616).toNat

/-- `Time`: an instant, seconds since the internal zero plus nanoseconds
within the second (`int64_t sec; int32_t nsec;`). -/
structure Time where
  sec : Int
  nsec : Int
deriving DecidableEq, Repr

/-- `days_before[m]`: days in a non-leap year before month `m` begins
(index 12 counts the whole year). -/
def days_before (m : Int) : Int :=
  if m = 0 then 0
  else if m = 1 then 31
  else if m = 2 then 31 + 28
  else if m = 3 then 31 + 28 + 31
  else if m = 4 then 31 + 28 + 31 + 30
  else if m = 5 then 31 + 28 + 31 + 30 + 31
  else if m = 6 then 31 + 28 + 31 + 30 + 31 + 30
  else if m = 7 then 31 + 28 + 31 + 30 + 31 + 30 + 31
  else if m = 8 then 31 + 28 + 31 + 30 + 31 + 30 + 31 + 31
  else if m = 9 then 31 + 28 + 31 + 30 + 31 + 30 + 31 + 31 + 30
  else if m = 10 then 31 + 28 + 31 + 30 + 31 + 30 + 31 + 31 + 30 + 31
  else if m = 11 then 31 + 28 + 31 + 30 + 31 + 30 + 31 + 31 + 30 + 31 + 30
  else if m = 12 then 31 + 28 + 31 + 30 + 31 + 30 + 31 + 31 + 30 + 31 + 30 + 31
  else 0

/-- `norm`: returns `(nhi, nlo)` with `hi*base + lo == nhi*base + nlo` and
`0 <= nlo < base` (C ints; the claims only exercise ranges where the C `int`
arithmetic is exact). -/
def norm (hi lo base : Int) : Int × Int :=
  let p :=
    if lo < 0 then
      let n := (-lo - 1).tdiv base + 1
      (hi - n, lo + n * base)
    else (hi, lo)
  if p.2 ≥ base then
    let n := p.2.tdiv base
    (p.1 + n, p.2 - n * base)
  else p

/-- `days_since_epoch`: days from the absolute epoch (year 1) to the start of
`year`, via 400/100/4/1-year cycle decomposition (`uint64_t` arithmetic; for
every `int` year the intermediate values fit in `uint64_t`, so the
computation is exact over `Nat`). -/
def days_since_epoch (year : Int) : Nat :=
  let y : Nat := (year - absolute_zero_year).toNat
  -- Add in days from complete 400-year cycles.
  let n := y / 400
  let y := y - 400 * n
  let d := days_per_400_years * n
  -- Add in days from complete 100-year cycles.
  let n := y / 100
  let y := y - 100 * n
  let d := d + days_per_100_years * n
  -- Add in days from complete 4-year cycles.
  let n := y / 4
  let y := y - 4 * n
  let d := d + days_per_4_years * n
  -- Add in days from remaining non-leap years.
  d + 365 * y

/-- `is_leap`: whether the year is a leap year (C `%` is truncating). -/
def is_leap (year : Int) : Bool :=
  year.tmod 4 == 0 && (year.tmod 100 != 0 || year.tmod 400 == 0)

/-- `abs_time`: the time as an absolute (`uint64_t`) second count. -/
def abs_time (t : Time) : Nat := toU64 (t.sec + internal_to_absolute)

/-- `abs_date`: absolute seconds to (year, zero-based day-of-year), by
stripping 400/100/4/1-year day blocks (`uint64_t` arithmetic). -/
def abs_date (abs : Nat) : Int × Nat :=
  -- Split into time and day.
  let d := abs / 86400
  -- Account for 400 year cycles.
  let n := d / days_per_400_years
  let y := 400 * n
  let d := d - days_per_400_years * n
  -- Cut off 100-year cycles; correct the boundary day with n -= n >> 2.
  let n := d / days_per_100_years
  let n := n - n / 4
  let y := y + 100 * n
  let d := d - days_per_100_years * n
  -- Cut off 4-year cycles.
  let n := d / days_per_4_years
  let y := y + 4 * n
  let d := d - days_per_4_years * n
  -- Cut off years within a 4-year cycle; correct with n -= n >> 2.
  let n := d / 365
  let n := n - n / 4
  let y := y + n
  let d := d - 365 * n
  ((y : Int) + absolute_zero_year, d)

/-- Month/day estimation step of `abs_date_full`: assume 31-day months and
correct against the `days_before` table (`day` is the possibly leap-adjusted
zero-based day-of-year). -/
def yday_est (day : Int) : Int × Int :=
  let month := day.tdiv 31
  let ed := days_before (month + 1)
  let p := if day ≥ ed then (month + 1, ed) else (month, days_before month)
  (p.1 + 1, day - p.2 + 1)

/-- Leap-day handling of `abs_date_full`, lines 205-236 of time.c: note the
two `if`s run in sequence (Go's original uses an exclusive `switch`). -/
def yday_to_md (leap : Bool) (yday : Int) : Int × Int :=
  if leap then
    let day := if yday > 31 + 29 - 1 then yday - 1 else yday
    if day = 31 + 29 - 1 then (2, 29)
    else yday_est day
  else yday_est yday

/-- `abs_date_full`: absolute seconds to (year, month, day, day-of-year). -/
def abs_date_full (abs : Nat) : Int × Int × Int × Nat :=
  let p := abs_date abs
  let md := yday_to_md (is_leap p.1) p.2
  (p.1, md.1, md.2, p.2)

/-- `abs_clock`: absolute seconds to (hour, minute, second) within the day. -/
def abs_clock (abs : Nat) : Int × Int × Int :=
  let sec := abs % 86400
  let hour := sec / 3600
  let sec := sec - hour * 3600
  let min := sec / 60
  let sec := sec - min * 60
  ((hour : Int), (min : Int), (sec : Int))

/-- Body of `time_date` after the month has been normalized into [1,12]
(the C function is this code preceded by the month normalization; the
`uint64_t` day/second accumulation wraps modulo 2^64 at every step, which is
equivalent to exact `Int` arithmetic followed by one final `wrap64`). -/
def time_date_core (year month day hour min sec nsec offset_sec : Int) : Time :=
  -- Normalize nsec, sec, min, hour, overflowing into day.
  let p1 := norm sec nsec 1000000000
  let p2 := norm min p1.1 60
  let p3 := norm hour p2.1 60
  let p4 := norm day p3.1 24
  -- Compute days since the absolute epoch.
  let d : Int := (days_since_epoch year : Int)
  -- Add in days before this month.
  let d := d + days_before (month - 1)
  let d := if is_leap year ∧ 3 ≤ month then d + 1 else d
  -- Add in days before today.
  let d := d + (p4.1 - 1)
  -- Add in time elapsed today.
  let abs := d * seconds_per_day
  let abs := abs + (p4.2 * seconds_per_hour + p3.2 * seconds_per_minute + p2.2)
  -- Convert to UTC.
  let abs := abs - offset_sec
  ⟨wrap64 (abs + absolute_to_internal), p1.2⟩

/-- `time_date`: the Time for yyyy-mm-dd hh:mm:ss + nsec at the given UTC
offset; out-of-range fields are normalized. -/
def time_date (year month day hour min sec nsec offset_sec : Int) : Time :=
  -- Normalize month, overflowing into year.
  let p := norm year (month - 1) 12
  time_date_core p.1 (p.2 + 1) day hour min sec nsec offset_sec

/-- `time_get_date`: the year, month, and day in which `t` occurs. -/
def time_get_date (t : Time) : Int × Int × Int :=
  let q := abs_date_full (abs_time t)
  (q.1, q.2.1, q.2.2.1)

/-- `time_get_clock`: the hour, minute, and second within the day of `t`. -/
def time_get_clock (t : Time) : Int × Int × Int :=
  abs_clock (abs_time t)

/-- `time_get_nano`: the nanosecond offset within the second of `t`. -/
def time_get_nano (t : Time) : Int := t.nsec

/-- `unix_time`: build a Time from Unix seconds and (int32) nanoseconds;
the `int64_t` addition may wrap, and the `nsec` argument is converted to
`int32_t` at the call boundary. -/
def unix_time (sec nsec : Int) : Time :=
  ⟨wrap64 (sec + unix_to_internal), wrap32 nsec⟩

/-- `time_unix`: the Time for the given Unix time; `nsec` may lie outside
[0, 999999999] and is normalized into `sec`. -/
def time_unix (sec nsec : Int) : Time :=
  let p :=
    if nsec < 0 ∨ nsec ≥ 1000000000 then
      let n := nsec.tdiv 1000000000
      let sec := wrap64 (sec + n)
      let nsec := nsec - n * 1000000000
      if nsec < 0 then (wrap64 (sec - 1), nsec + 1000000000) else (sec, nsec)
    else (sec, nsec)
  unix_time p.1 p.2

/-- `time_after`: whether `t` is after `u`. -/
def time_after (t u : Time) : Bool :=
  decide (t.sec > u.sec ∨ (t.sec = u.sec ∧ t.nsec > u.nsec))

/-- `time_before`: whether `t` is before `u`. -/
def time_before (t u : Time) : Bool :=
  decide (t.sec < u.sec ∨ (t.sec = u.sec ∧ t.nsec < u.nsec))

/-- `time_equal`: whether `t` and `u` are the same instant. -/
def time_equal (t u : Time) : Bool :=
  decide (t.sec = u.sec ∧ t.nsec = u.nsec)

/-- `time_add`: the time `t + d` (the final second-field addition may wrap;
the nanosecond value is stored into an `int32_t` field). -/
def time_add (t : Time) (d : Int) : Time :=
  let dsec := d.tdiv TIME_SECOND
  let nsec := t.nsec + d.tmod 1000000000
  let p :=
    if nsec ≥ 1000000000 then (dsec + 1, nsec - 1000000000)
    else if nsec < 0 then (dsec - 1, nsec + 1000000000)
    else (dsec, nsec)
  ⟨wrap64 (t.sec + p.1), wrap32 p.2⟩

/-- `time_sub`: the duration `t - u`, with a round-trip overflow check that
is supposed to saturate to `DURATION_MIN`/`DURATION_MAX`. -/
def time_sub (t u : Time) : Int :=
  let d := wrap64 ((t.sec - u.sec) * TIME_SECOND + (t.nsec - u.nsec))
  if time_equal (time_add u d) t then d
  else if time_before t u then DURATION_MIN
  else DURATION_MAX

/-- `time_add_date`: add the given number of years, months, and days to `t`,
normalizing the result like `time_date`. -/
def time_add_date (t : Time) (years months days : Int) : Time :=
  let q := time_get_date t
  let c := time_get_clock t
  time_date (q.1 + years) (q.2.1 + months) (q.2.2 + days) c.1 c.2.1 c.2.2 t.nsec 0

/-- `tless_than_half`: whether `x + x < y` in `uint64_t` arithmetic. -/
def tless_than_half (x y : Int) : Bool :=
  decide ((toU64 x + toU64 x) % 18446744073709551616 < toU64 y)

/-- `time_div`: remainder of `t` modulo `d`; only `d` a multiple of one
second is supported (others return 0).  Negative times are handled by
negating (with possible `int64_t` wrap at INT64_MIN) and re-biasing. -/
def time_div (t : Time) (d : Int) : Int :=
  if d.tmod TIME_SECOND ≠ 0 then 0
  else
    let neg := t.sec < 0
    -- Operate on the absolute value.
    let sec0 := if neg then wrap64 (-t.sec) else t.sec
    let nsec0 : Int := if neg then -t.nsec else t.nsec
    let p := if neg ∧ nsec0 < 0 then (wrap64 (sec0 - 1), nsec0 + 1000000000) else (sec0, nsec0)
    let d1 := d.tdiv TIME_SECOND
    let r := p.1.tmod d1 * TIME_SECOND + p.2
    if neg ∧ r ≠ 0 then d - r else r

/-- `time_truncate`: round `t` down to a multiple of `d` (no-op for d <= 0).
-/
def time_truncate (t : Time) (d : Int) : Time :=
  if d ≤ 0 then t
  else time_add t (-(time_div t d))

/-- `time_round`: round `t` to the nearest multiple of `d`, halfway values
rounding up (no-op for d <= 0). -/
def time_round (t : Time) (d : Int) : Time :=
  if d ≤ 0 then t
  else
    let r := time_div t d
    if tless_than_half r d then time_add t (-r)
    else time_add t (d - r)

/-- `dless_than_half`: whether `x + x < y` in `uint64_t` arithmetic (the
duration unit's copy of the helper). -/
def dless_than_half (x y : Int) : Bool :=
  decide ((toU64 x + toU64 x) % 18446744073709551616 < toU64 y)

/-- `duration_truncate`: round `d` toward zero to a multiple of `m` (no-op
for m <= 0; C `%` is truncating, hence toward zero). -/
def duration_truncate (d m : Int) : Int :=
  if m ≤ 0 then d
  else d - d.tmod m

/-- `duration_round`: round `d` to the nearest multiple of `m`, ties away
from zero, saturating to `DURATION_MIN`/`DURATION_MAX` on overflow (no-op
for m <= 0).  The overflow checks compare the wrapped candidate against `d`.
-/
def duration_round (d m : Int) : Int :=
  if m ≤ 0 then d
  else
    let r := d.tmod m
    if d < 0 then
      let r := -r
      if dless_than_half r m then d + r
      else
        let d1 := wrap64 (d - m + r)
        if d1 < d then d1 else DURATION_MIN
    else
      if dless_than_half r m then d - r
      else
        let d1 := wrap64 (d + m - r)
        if d1 > d then d1 else DURATION_MAX

/-- `time_marshal_binary`: the 13-byte layout [version=1, seconds as
big-endian signed 64-bit, nanoseconds as big-endian signed 32-bit].  A byte
is the value arithmetically shifted right (floor division by 2^k) and
truncated to `uint8_t` (modulo 256). -/
def time_marshal_binary (t : Time) : List Int :=
  [1,
   t.sec / 72057594037927936 % 256, t.sec / 281474976710656 % 256,
   t.sec / 1099511627776 % 256, t.sec / 4294967296 % 256,
   t.sec / 16777216 % 256, t.sec / 65536 % 256, t.sec / 256 % 256,
   t.sec % 256,
   t.nsec / 16777216 % 256, t.nsec / 65536 % 256, t.nsec / 256 % 256,
   t.nsec % 256]

/-- `time_unmarshal_binary`: rebuild a Time from the 13-byte layout; an
unrecognized version decodes to the zero instant.  The bitwise ORs of
disjoint shifted bytes are modelled as sums; the assembled values are
reinterpreted as `int64_t`/`int32_t`. -/
def time_unmarshal_binary (buf : List Int) : Time :=
  match buf with
  | v :: b1 :: b2 :: b3 :: b4 :: b5 :: b6 :: b7 :: b8 :: b9 :: b10 :: b11 :: b12 :: _ =>
    if v ≠ 1 then ⟨0, 0⟩
    else
      let sec := wrap64 (b8 + b7 * 256 + b6 * 65536 + b5 * 16777216 + b4 * 4294967296 +
        b3 * 1099511627776 + b2 * 281474976710656 + b1 * 72057594037927936)
      let nsec := wrap32 (b12 + b11 * 256 + b10 * 65536 + b9 * 16777216)
      ⟨sec, nsec⟩
  | _ => ⟨0, 0⟩

/-- Specification-side helper: the instant as a total nanosecond count. -/
def toNanos (t : Time) : Int := t.sec * 1000000000 + t.nsec

/-- Specification-side helper (from the words of the spec, for claim C3):
the multiple of `m` nearest to `d`, halfway values rounding away from zero
(meaningful for `m > 0`; `d % m` here is the nonnegative remainder). -/
def nearestMult (d m : Int) : Int :=
  let r := d % m
  if 2 * r < m then d - r
  else if 2 * r > m then d - r + m
  else if 0 ≤ d then d - r + m
  else d - r

end Vaqt

namespace Vaqt

/-! ## Basic helper lemmas -/

/-- `wrap64` is the identity on values representable in `int64_t`. -/
lemma wrap64_eq_self (x : Int) (h1 : -9223372036854775808 ≤ x)
    (h2 : x < 9223372036854775808) : wrap64 x = x := by
  unfold wrap64; omega

/-- `wrap32` is the identity on values representable in `int32_t`. -/
lemma wrap32_eq_self {x : Int} (h1 : -2147483648 ≤ x) (h2 : x < 2147483648) :
    wrap32 x = x := by
  unfold wrap32; omega

/-- `norm` is the identity when the low component is already in range. -/
lemma norm_eq_self {hi lo base : Int} (h1 : 0 ≤ lo) (h2 : lo < base) :
    norm hi lo base = (hi, lo) := by
  simp [norm, h1.not_lt, not_le.mpr h2]

/-- Normalizing month 13 (stored as 12 after the `month - 1` shift) carries
into the next year. -/
lemma norm_twelve (y : Int) : norm y 12 12 = (y + 1, 0) := by
  have ht : (12 : Int).tdiv 12 = 1 := by decide
  simp [norm, ht]

/-! ## Claim C1 -/

/-- Claim C1 states that building an instant from in-range calendar fields
and decomposing it recovers the fields exactly.  The code violates this at
March 1 of any leap year: `abs_date_full` (time.c lines 206-221) runs two
`if`s in sequence where the original algorithm needs exclusive cases, so
day-of-year 60 of a leap year is first decremented to 59 and then reported
as February 29.  This theorem evaluates the code at the failing input
(2024-03-01T00:00:00Z) and at its neighbours, which decompose correctly. -/
theorem claim_C1 :
    time_get_date (time_date 2024 3 1 0 0 0 0 0) = (2024, 2, 29) ∧
    time_get_clock (time_date 2024 3 1 0 0 0 0 0) = (0, 0, 0) ∧
    time_get_nano (time_date 2024 3 1 0 0 0 0 0) = 0 ∧
    time_get_date (time_date 2024 2 29 0 0 0 0 0) = (2024, 2, 29) ∧
    time_get_date (time_date 2024 3 2 0 0 0 0 0) = (2024, 3, 2) ∧
    time_get_date (time_date 2023 3 1 0 0 0 0 0) = (2023, 3, 1) := by
  decide

/-! ## Claim C2 -/

/-- Claim C2 states that `time_sub` either returns the exact difference or
saturates to `DURATION_MIN`/`DURATION_MAX`, never a wrapped value.  At
t = {INT64_MAX, 0}, u = {INT64_MIN, 0} the true difference
(2^64-1)*10^9 ns overflows a `Duration`, yet the wrapped candidate
-10^9 passes the `time_add` round-trip check (the second-field wrap of
exactly 2^64 * 10^9 ns cancels), so the code returns the wrapped value
-1000000000 even though t is after u (the claim, and the function's own
doc comment, demand `DURATION_MAX`). -/
theorem claim_C2 :
    time_sub ⟨9223372036854775807, 0⟩ ⟨-9223372036854775808, 0⟩ = -1000000000 ∧
    time_after ⟨9223372036854775807, 0⟩ ⟨-9223372036854775808, 0⟩ = true ∧
    toNanos ⟨9223372036854775807, 0⟩ - toNanos ⟨-9223372036854775808, 0⟩ > DURATION_MAX := by
  decide

/-! ## Claim C4 -/

/-- Claim C4: month 13 of year y normalizes to month 1 of year y+1 before
the day count is computed — `time_date(y, 13, d, h, mi, s, ns, off)` equals
`time_date(y+1, 1, d, h, mi, s, ns, off)` for every year and all field
values (in particular all in-range day/time fields), and in particular
October 32, 2024 equals November 1, 2024. -/
theorem claim_C4 :
    (∀ y d h mi s ns off : Int,
      time_date y 13 d h mi s ns off = time_date (y + 1) 1 d h mi s ns off) ∧
    time_date 2024 10 32 0 0 0 0 0 = time_date 2024 11 1 0 0 0 0 0 := by
  refine ⟨fun y d h mi s ns off => ?_, by decide⟩
  have h1 : norm y (13 - 1) 12 = (y + 1, 0) := by norm_num [norm_twelve]
  have h2 : norm (y + 1) (1 - 1) 12 = (y + 1, 0) := by
    norm_num [norm_eq_self]
  unfold time_date
  rw [h1, h2]

/-! ## Claim C10 -/

/-- Claim C10 states that `time_add_date t 0 0 0` reproduces `t` exactly for
every valid instant in the supported envelope.  The code violates this at
the instant 2024-03-01T00:00:00Z (sec = 63844848000): the decomposition bug
of `abs_date_full` (see `claim_C1`) reports that instant as February 29, so
recomposition yields the previous day. -/
theorem claim_C10 :
    time_add_date (time_date 2024 3 1 0 0 0 0 0) 0 0 0 = time_date 2024 2 29 0 0 0 0 0 ∧
    time_add_date (time_date 2024 3 1 0 0 0 0 0) 0 0 0 ≠ time_date 2024 3 1 0 0 0 0 0 ∧
    (time_date 2024 3 1 0 0 0 0 0).sec = 63844848000 := by
  decide

end Vaqt

namespace Vaqt

/-! ## Claim C6 -/

/-- Bridge from the Boolean `is_leap` (which uses the C truncating `%`) to
divisibility facts usable by `omega`. -/
lemma is_leap_iff (y : Int) :
    is_leap y = true ↔ (4 ∣ y ∧ (¬ (100 ∣ y) ∨ 400 ∣ y)) := by
  simp only [is_leap, Bool.and_eq_true, Bool.or_eq_true, beq_iff_eq, bne_iff_ne, ne_eq,
    ← Int.dvd_iff_tmod_eq_zero]

/-- Claim C6: for every year in the supported envelope, the closed-form
cycle decomposition `days_since_epoch` counts exactly one more day across a
leap year than across a regular year: `days_since_epoch (y+1) =
days_since_epoch y + 366` iff `y` satisfies the Gregorian leap rule, else
`+ 365`. -/
theorem claim_C6 (y : Int) (h1 : -2147483648 ≤ y) (h2 : y < 2147483648) :
    days_since_epoch (y + 1) =
      days_since_epoch y + (if is_leap y then 366 else 365) := by
  have hl := is_leap_iff y
  cases hb : is_leap y with
  | false =>
    have hP : ¬ (4 ∣ y ∧ (¬ (100 ∣ y) ∨ 400 ∣ y)) := by simpa [hb] using hl
    simp only [hb, if_false, Bool.false_eq_true]
    simp only [days_since_epoch, days_per_400_years, days_per_100_years, days_per_4_years,
      absolute_zero_year]
    omega
  | true =>
    have hP : 4 ∣ y ∧ (¬ (100 ∣ y) ∨ 400 ∣ y) := by simpa [hb] using hl
    simp only [hb, if_true]
    simp only [days_since_epoch, days_per_400_years, days_per_100_years, days_per_4_years,
      absolute_zero_year]
    omega

/-- Witness for claim C6 at the leap year 2024 and the regular year 2023. -/
theorem claim_C6_witness :
    days_since_epoch 2025 = days_since_epoch 2024 + (if is_leap 2024 then 366 else 365) ∧
    days_since_epoch 2024 = days_since_epoch 2023 + (if is_leap 2023 then 366 else 365) := by
  exact ⟨claim_C6 2024 (by decide) (by decide), claim_C6 2023 (by decide) (by decide)⟩

end Vaqt

namespace Vaqt

/-! ## Claim C8 -/

/-- Claim C8: for every instant with nanoseconds in [0, 999999999] —
including pre-epoch instants (negative seconds) and the zero instant —
unmarshaling the marshaled 13-byte representation returns the instant
unchanged. -/
theorem claim_C8 (t : Time)
    (h1 : -9223372036854775808 ≤ t.sec) (h2 : t.sec < 9223372036854775808)
    (h3 : 0 ≤ t.nsec) (h4 : t.nsec < 1000000000) :
    time_unmarshal_binary (time_marshal_binary t) = t := by
  obtain ⟨s, n⟩ := t
  simp only [time_marshal_binary, time_unmarshal_binary] at *
  rw [if_neg (by norm_num)]
  simp only [Time.mk.injEq]
  constructor
  · unfold wrap64
    omega
  · unfold wrap32
    omega

/-- Witness for claim C8 at a pre-epoch instant and at the zero instant. -/
theorem claim_C8_witness :
    time_unmarshal_binary (time_marshal_binary ⟨-5, 123⟩) = ⟨-5, 123⟩ ∧
    time_unmarshal_binary (time_marshal_binary ⟨0, 0⟩) = ⟨0, 0⟩ := by
  exact ⟨claim_C8 ⟨-5, 123⟩ (by decide) (by decide) (by decide) (by decide),
    claim_C8 ⟨0, 0⟩ (by decide) (by decide) (by decide) (by decide)⟩

end Vaqt

namespace Vaqt

/-! ## Claim C7 -/

/-- Negating the dividend negates the C truncating remainder. -/
lemma tmod_neg_left (a b : Int) : (-a).tmod b = -(a.tmod b) := by
  simp [Int.tmod_def, Int.neg_tdiv]; ring

/-- Characterization of the C truncating division/remainder for a positive
divisor: decomposition identity plus remainder bounds and sign. -/
lemma tmod_char (a b : Int) (hb : 0 < b) :
    b * a.tdiv b + a.tmod b = a ∧ -b < a.tmod b ∧ a.tmod b < b ∧
    (0 ≤ a → 0 ≤ a.tmod b) ∧ (a ≤ 0 → a.tmod b ≤ 0) := by
  refine ⟨Int.tdiv_add_tmod a b, ?_, Int.tmod_lt_of_pos a hb, fun ha => Int.tmod_nonneg b ha,
    fun ha => ?_⟩
  · rcases le_or_lt 0 a with ha | ha
    · have := Int.tmod_nonneg b ha
      omega
    · have h1 : (-a).tmod b < b := Int.tmod_lt_of_pos _ hb
      have h2 : (-a).tmod b = -(a.tmod b) := tmod_neg_left a b
      omega
  · have h2 : (-a).tmod b = -(a.tmod b) := tmod_neg_left a b
    have h3 : 0 ≤ (-a).tmod b := Int.tmod_nonneg b (by omega)
    omega

/-- The second component of `norm` always lands in `[0, base)` when the base
is positive. -/
lemma norm_snd_bounds (hi lo base : Int) (hb : 0 < base) :
    0 ≤ (norm hi lo base).2 ∧ (norm hi lo base).2 < base := by
  have ha1 := Int.tdiv_add_tmod (-lo - 1) base
  have ha2 := Int.tmod_lt_of_pos (-lo - 1) hb
  have ha4 := Int.tdiv_add_tmod lo base
  have ha5 := Int.tmod_lt_of_pos lo hb
  have he1 : ((-lo - 1).tdiv base + 1) * base = base * ((-lo - 1).tdiv base) + base := by ring
  have he2 : lo.tdiv base * base = base * lo.tdiv base := by ring
  unfold norm
  rcases lt_or_ge lo 0 with h1 | h1
  · have ha3 : 0 ≤ (-lo - 1).tmod base := Int.tmod_nonneg base (by omega)
    rw [if_pos h1]
    rw [if_neg (show ¬ ((hi - ((-lo - 1).tdiv base + 1),
      lo + ((-lo - 1).tdiv base + 1) * base) : Int × Int).2 ≥ base by dsimp only; omega)]
    dsimp only
    omega
  · have ha6 : 0 ≤ lo.tmod base := Int.tmod_nonneg base (by omega)
    rw [if_neg (show ¬ lo < 0 by omega)]
    rcases lt_or_ge lo base with h2 | h2
    · rw [if_neg (show ¬ ((hi, lo) : Int × Int).2 ≥ base by dsimp only; omega)]
      dsimp only
      omega
    · rw [if_pos (show ((hi, lo) : Int × Int).2 ≥ base by dsimp only; omega)]
      dsimp only
      omega

/-- Claim C7: every public constructor/arithmetic operation named by the
claim establishes the nanosecond invariant — `time_unix` for every int64
input pair, `time_add` for every instant whose nanoseconds are in range and
every duration, and `time_date` for every field tuple, return an instant
whose `nsec` lies in [0, 999999999]. -/
theorem claim_C7 :
    (∀ sec nsec : Int, -9223372036854775808 ≤ sec → sec < 9223372036854775808 →
      -9223372036854775808 ≤ nsec → nsec < 9223372036854775808 →
      0 ≤ (time_unix sec nsec).nsec ∧ (time_unix sec nsec).nsec < 1000000000) ∧
    (∀ (t : Time) (d : Int), 0 ≤ t.nsec → t.nsec < 1000000000 →
      0 ≤ (time_add t d).nsec ∧ (time_add t d).nsec < 1000000000) ∧
    (∀ year month day hour min sec nsec offset_sec : Int,
      0 ≤ (time_date year month day hour min sec nsec offset_sec).nsec ∧
      (time_date year month day hour min sec nsec offset_sec).nsec < 1000000000) := by
  refine ⟨fun sec nsec h1 h2 h3 h4 => ?_, fun t d h1 h2 => ?_, ?_⟩
  · have hc := tmod_char nsec 1000000000 (by norm_num)
    simp only [time_unix, unix_time]
    split_ifs with ha hb
    · have hd : nsec - nsec.tdiv 1000000000 * 1000000000 = nsec.tmod 1000000000 := by
        have := hc.1; linarith [hc.1]
      simp only [wrap32]
      omega
    · have hd : nsec - nsec.tdiv 1000000000 * 1000000000 = nsec.tmod 1000000000 := by
        linarith [hc.1]
      simp only [wrap32]
      omega
    · simp only [wrap32]
      omega
  · have hc := tmod_char d 1000000000 (by norm_num)
    simp only [time_add, TIME_SECOND]
    split_ifs with ha hb
    · simp only [wrap32]; omega
    · simp only [wrap32]; omega
    · simp only [wrap32]; omega
  · intro year month day hour min sec nsec offset_sec
    have hb := norm_snd_bounds sec nsec 1000000000 (by norm_num)
    simp only [time_date, time_date_core]
    exact hb

/-- Witness for claim C7 at concrete inputs exercising all three
conjuncts (including an out-of-range nanosecond input to `time_unix`). -/
theorem claim_C7_witness :
    (0 ≤ (time_unix (-5) (-1)).nsec ∧ (time_unix (-5) (-1)).nsec < 1000000000) ∧
    (0 ≤ (time_add ⟨7, 999999999⟩ 1).nsec ∧ (time_add ⟨7, 999999999⟩ 1).nsec < 1000000000) ∧
    (0 ≤ (time_date 2024 10 32 0 0 0 (-1) 0).nsec ∧
      (time_date 2024 10 32 0 0 0 (-1) 0).nsec < 1000000000) := by
  exact ⟨claim_C7.1 (-5) (-1) (by decide) (by decide) (by decide) (by decide),
    claim_C7.2.1 ⟨7, 999999999⟩ 1 (by decide) (by decide),
    claim_C7.2.2 2024 10 32 0 0 0 (-1) 0⟩

end Vaqt

namespace Vaqt

/-! ## Claim C3 -/

/-- Claim C3: for `m > 0`, `duration_round d m` is the multiple of `m`
nearest to `d` with halfway values rounding away from zero (`nearestMult`,
which the first four conjuncts certify: it is a multiple of `m`, within half
a step of `d`, and at a halfway point it moved away from zero), except that
an unrepresentable nearest multiple saturates to `DURATION_MAX` for
non-negative `d` and `DURATION_MIN` for negative `d`; for `m ≤ 0` the
duration is returned unchanged; and in particular 25.5s rounds to 30s at a
10s grid. -/
theorem claim_C3 (d m : Int)
    (hd1 : -9223372036854775808 ≤ d) (hd2 : d < 9223372036854775808)
    (hm2 : m < 9223372036854775808) :
    (m ≤ 0 → duration_round d m = d) ∧
    (0 < m →
      (m ∣ nearestMult d m) ∧
      (-m ≤ 2 * (d - nearestMult d m) ∧ 2 * (d - nearestMult d m) ≤ m) ∧
      (2 * (d - nearestMult d m) = m → d < 0) ∧
      (2 * (d - nearestMult d m) = -m → 0 ≤ d) ∧
      duration_round d m =
        (if -9223372036854775808 ≤ nearestMult d m ∧ nearestMult d m < 9223372036854775808
          then nearestMult d m
          else if 0 ≤ d then DURATION_MAX else DURATION_MIN)) ∧
    duration_round 25500000000 10000000000 = 30000000000 := by
  refine ⟨fun hm => by simp only [duration_round]; rw [if_pos hm], fun hm => ?_, by decide⟩
  have hb1 : 0 ≤ d % m := Int.emod_nonneg d (by omega)
  have hb2 : d % m < m := Int.emod_lt_of_pos d hm
  have hdvd : m ∣ d - d % m := by
    have h := Int.ediv_add_emod d m
    exact ⟨d / m, by omega⟩
  have ht1 : 0 ≤ d → d.tmod m = d % m := fun h => Int.tmod_eq_emod h (by omega)
  have ht2 : d < 0 → d % m = 0 → d.tmod m = 0 := fun h h0 =>
    Int.tmod_eq_zero_of_dvd (Int.dvd_of_emod_eq_zero h0)
  have ht3 : d < 0 → d % m ≠ 0 → d.tmod m = d % m - m := by
    intro h h0
    have e1 : d.tmod m = -((-d).tmod m) := by
      have e0 := tmod_neg_left (-d) m
      simpa using e0
    have e2 : (-d).tmod m = (-d) % m := Int.tmod_eq_emod (by omega) (by omega)
    have e3 : (-d) % m = m - d % m := by
      have e4 : (-d) % m = (0 - d % m) % m := by
        conv_lhs => rw [show -d = 0 - d by ring]
        rw [Int.sub_emod]
        norm_num
      rw [e4, show (0 : Int) - d % m = -(d % m) by ring, Int.neg_emod]
      exact Int.emod_eq_of_lt (by omega) (by omega)
    omega
  refine ⟨?_, ?_, ?_, ?_, ?_⟩
  · simp only [nearestMult]
    split_ifs with h1 h2 h3
    · exact hdvd
    · exact hdvd.add (dvd_refl m)
    · exact hdvd.add (dvd_refl m)
    · exact hdvd
  · simp only [nearestMult]
    split_ifs <;> constructor <;> omega
  · simp only [nearestMult]
    split_ifs <;> omega
  · simp only [nearestMult]
    split_ifs <;> omega
  · simp only [duration_round, nearestMult, dless_than_half, toU64, wrap64, DURATION_MIN,
      DURATION_MAX]
    rw [if_neg (by omega : ¬ m ≤ 0)]
    simp only [decide_eq_true_eq]
    split_ifs <;> omega

/-- Witness for claim C3: both the `m ≤ 0` no-op and the `m > 0` rounding
behaviour at concrete inputs. -/
theorem claim_C3_witness :
    duration_round 25500000000 (-3) = 25500000000 ∧
    nearestMult 25500000000 10000000000 = 30000000000 ∧
    duration_round 25500000000 10000000000 =
      (if -9223372036854775808 ≤ nearestMult 25500000000 10000000000 ∧
          nearestMult 25500000000 10000000000 < 9223372036854775808
        then nearestMult 25500000000 10000000000
        else if 0 ≤ (25500000000 : Int) then DURATION_MAX else DURATION_MIN) := by
  refine ⟨(claim_C3 25500000000 (-3) (by decide) (by decide) (by decide)).1 (by decide),
    by decide,
    ((claim_C3 25500000000 10000000000 (by decide) (by decide) (by decide)).2.1
      (by decide)).2.2.2.2⟩

end Vaqt

namespace Vaqt

/-! ## Characterizations of the rounding helpers -/

/-- For in-range nonnegative arguments, `tless_than_half x y` is `2x < y`. -/
lemma tless_iff {x y : Int} (hx : 0 ≤ x) (hx2 : x < 9223372036854775808)
    (hy : 0 ≤ y) (hy2 : y < 9223372036854775808) :
    tless_than_half x y = true ↔ 2 * x < y := by
  simp only [tless_than_half, toU64, decide_eq_true_eq]
  omega

/-- `time_add` in terms of the total nanosecond count: for an instant with
in-range nanoseconds, `time_add t v` is the Euclidean div/mod splitting of
`toNanos t + v`, with the second field wrapped to `int64_t`. -/
lemma time_add_char (t : Time) (v : Int) (hn1 : 0 ≤ t.nsec) (hn2 : t.nsec < 1000000000) :
    time_add t v = ⟨wrap64 ((toNanos t + v) / 1000000000), (toNanos t + v) % 1000000000⟩ := by
  obtain ⟨h1, h2, h3, h4, h5⟩ := tmod_char v 1000000000 (by norm_num)
  simp only [time_add, toNanos, TIME_SECOND]
  split_ifs with ha hb <;>
    (simp only [Time.mk.injEq, wrap64, wrap32]; constructor <;> omega)

/-- The Euclidean remainder of a negated value. -/
lemma neg_emod_char (N d : Int) (hd : 0 < d) :
    (N % d = 0 → (-N) % d = 0) ∧ (N % d ≠ 0 → (-N) % d = d - N % d) := by
  have hb1 : 0 ≤ N % d := Int.emod_nonneg N (by omega)
  have hb2 : N % d < d := Int.emod_lt_of_pos N hd
  constructor
  · intro h0
    have hdvd : d ∣ N := Int.dvd_of_emod_eq_zero h0
    exact Int.emod_eq_zero_of_dvd (Dvd.dvd.neg_right hdvd)
  · intro h0
    have e4 : (-N) % d = (0 - N % d) % d := by
      conv_lhs => rw [show -N = 0 - N by ring]
      rw [Int.sub_emod]
      norm_num
    rw [e4, show (0 : Int) - N % d = -(N % d) by ring, Int.neg_emod]
    exact Int.emod_eq_of_lt (by omega) (by omega)

/-- The split second/nanosecond remainder computed by `time_div` equals the
Euclidean remainder of the total nanosecond count (nonnegative case). -/
lemma sec_split_emod (s n d1 : Int) (hs : 0 ≤ s) (hn1 : 0 ≤ n) (hn2 : n < 1000000000)
    (hd1 : 0 < d1) :
    s.tmod d1 * 1000000000 + n = (s * 1000000000 + n) % (1000000000 * d1) := by
  have e1 : s.tmod d1 = s % d1 := Int.tmod_eq_emod hs (by omega)
  have e2 := Int.ediv_add_emod s d1
  have e3 : 0 ≤ s % d1 := Int.emod_nonneg s (by omega)
  have e4 : s % d1 < d1 := Int.emod_lt_of_pos s hd1
  rw [e1, show s * 1000000000 + n = (s % d1 * 1000000000 + n) + 1000000000 * d1 * (s / d1) from
    by linear_combination -1000000000 * e2, Int.add_mul_emod_self_left]
  exact (Int.emod_eq_of_lt (by omega) (by omega)).symm

/-- `time_div` in terms of the total nanosecond count: for a valid instant
away from INT64_MIN and a positive whole-second divisor, `time_div t d` is
the Euclidean remainder of `toNanos t` modulo `d`. -/
lemma time_div_char (t : Time) (d : Int)
    (ht1 : -9223372036854775808 < t.sec) (ht2 : t.sec < 9223372036854775808)
    (hn1 : 0 ≤ t.nsec) (hn2 : t.nsec < 1000000000)
    (hd : 0 < d) (hd2 : d < 9223372036854775808) (hmul : d.tmod 1000000000 = 0) :
    time_div t d = toNanos t % d := by
  obtain ⟨hc1, hc2, hc3, hc4, hc5⟩ := tmod_char d 1000000000 (by norm_num)
  have hdeq : d = 1000000000 * d.tdiv 1000000000 := by omega
  have hd1pos : 0 < d.tdiv 1000000000 := by omega
  simp only [time_div, TIME_SECOND]
  rw [if_neg (not_not_intro hmul)]
  rcases lt_or_ge t.sec 0 with hB | hA
  · -- negative seconds: negate, re-bias, and flip the remainder
    simp only [if_pos hB]
    rw [wrap64_eq_self (-t.sec) (by omega) (by omega)]
    obtain ⟨nc1, nc2⟩ := neg_emod_char (toNanos t) d hd
    have hb1 : 0 ≤ toNanos t % d := Int.emod_nonneg _ (by omega)
    have hb2 : toNanos t % d < d := Int.emod_lt_of_pos _ hd
    rcases eq_or_lt_of_le hn1 with h0 | h0
    · -- t.nsec = 0
      rw [if_neg (by omega : ¬ (t.sec < 0 ∧ -t.nsec < 0))]
      dsimp only
      have hsp := sec_split_emod (-t.sec) (-t.nsec) (d.tdiv 1000000000)
        (by omega) (by omega) (by omega) hd1pos
      have hval : -t.sec * 1000000000 + -t.nsec = -(toNanos t) := by
        simp only [toNanos]; ring
      rw [hval] at hsp
      rw [← hdeq] at hsp
      split_ifs with hc <;> omega
    · -- t.nsec > 0
      rw [if_pos (by omega : t.sec < 0 ∧ -t.nsec < 0)]
      rw [wrap64_eq_self (-t.sec - 1) (by omega) (by omega)]
      dsimp only
      have hsp := sec_split_emod (-t.sec - 1) (-t.nsec + 1000000000) (d.tdiv 1000000000)
        (by omega) (by omega) (by omega) hd1pos
      have hval : (-t.sec - 1) * 1000000000 + (-t.nsec + 1000000000) = -(toNanos t) := by
        simp only [toNanos]; ring
      rw [hval] at hsp
      rw [← hdeq] at hsp
      split_ifs with hc <;> omega
  · -- nonnegative seconds: direct remainder
    simp only [if_neg (not_lt.mpr hA)]
    rw [if_neg (by omega : ¬ (t.sec < 0 ∧ t.nsec < 0))]
    dsimp only
    rw [if_neg (by omega : ¬ (t.sec < 0 ∧ t.sec.tmod (d.tdiv 1000000000) * 1000000000 + t.nsec ≠ 0))]
    have hsp := sec_split_emod t.sec t.nsec (d.tdiv 1000000000) hA hn1 hn2 hd1pos
    rw [← hdeq] at hsp
    simpa only [toNanos] using hsp

end Vaqt

namespace Vaqt

/-! ## Claim C9 -/

/-- Adding a zero duration to a valid instant is the identity. -/
lemma time_add_zero (t : Time) (ht1 : -9223372036854775808 ≤ t.sec)
    (ht2 : t.sec < 9223372036854775808) (hn1 : 0 ≤ t.nsec) (hn2 : t.nsec < 1000000000) :
    time_add t 0 = t := by
  rw [time_add_char t 0 hn1 hn2]
  obtain ⟨s, n⟩ := t
  simp only [toNanos] at *
  simp only [Time.mk.injEq, wrap64]
  constructor <;> omega

/-- `time_round` is the identity on grids that are not whole multiples of
one second. -/
lemma time_round_of_nonmult (t : Time) (d : Int)
    (ht1 : -9223372036854775808 ≤ t.sec) (ht2 : t.sec < 9223372036854775808)
    (hn1 : 0 ≤ t.nsec) (hn2 : t.nsec < 1000000000)
    (hd : 0 < d) (hd2 : d < 9223372036854775808) (hmul : d.tmod 1000000000 ≠ 0) :
    time_round t d = t := by
  have hdiv : time_div t d = 0 := by
    simp only [time_div, TIME_SECOND]
    rw [if_pos hmul]
  simp only [time_round]
  rw [if_neg (by omega), hdiv]
  rw [if_pos ((tless_iff le_rfl (by norm_num) (by omega) hd2).mpr (by omega))]
  rw [neg_zero]
  exact time_add_zero t ht1 ht2 hn1 hn2

/-- Claim C9: for every valid instant and every positive duration that is
not a whole multiple of one second, both `time_truncate` and `time_round`
return the instant unchanged (silent no-op on the unsupported grid). -/
theorem claim_C9 (t : Time) (d : Int)
    (ht1 : -9223372036854775808 ≤ t.sec) (ht2 : t.sec < 9223372036854775808)
    (hn1 : 0 ≤ t.nsec) (hn2 : t.nsec < 1000000000)
    (hd : 0 < d) (hd2 : d < 9223372036854775808) (hmul : d.tmod 1000000000 ≠ 0) :
    time_truncate t d = t ∧ time_round t d = t := by
  have hdiv : time_div t d = 0 := by
    simp only [time_div, TIME_SECOND]
    rw [if_pos hmul]
  constructor
  · simp only [time_truncate]
    rw [if_neg (by omega), hdiv, neg_zero]
    exact time_add_zero t ht1 ht2 hn1 hn2
  · exact time_round_of_nonmult t d ht1 ht2 hn1 hn2 hd hd2 hmul

/-- Witness for claim C9 at a concrete instant and the 1.5-second grid. -/
theorem claim_C9_witness :
    time_truncate ⟨12345, 678⟩ 1500000000 = ⟨12345, 678⟩ ∧
    time_round ⟨12345, 678⟩ 1500000000 = ⟨12345, 678⟩ :=
  claim_C9 ⟨12345, 678⟩ 1500000000 (by decide) (by decide) (by decide) (by decide)
    (by decide) (by decide) (by decide)

end Vaqt

namespace Vaqt

/-! ## Claim C5 -/

/-- Closed form of `time_round` on a whole-second grid: the instant is moved
to the Euclidean div/mod splitting of `toNanos t` rounded down (when the
remainder is less than half of `d`) or up. -/
lemma time_round_char (t : Time) (d : Int)
    (ht1 : -9223372036854775808 < t.sec) (ht2 : t.sec < 9223372036854775808)
    (hn1 : 0 ≤ t.nsec) (hn2 : t.nsec < 1000000000)
    (hd : 0 < d) (hd2 : d < 9223372036854775808) (hmul : d.tmod 1000000000 = 0) :
    time_round t d =
      if 2 * (toNanos t % d) < d then
        ⟨wrap64 ((toNanos t - toNanos t % d) / 1000000000),
         (toNanos t - toNanos t % d) % 1000000000⟩
      else
        ⟨wrap64 ((toNanos t + (d - toNanos t % d)) / 1000000000),
         (toNanos t + (d - toNanos t % d)) % 1000000000⟩ := by
  have hb1 : 0 ≤ toNanos t % d := Int.emod_nonneg _ (by omega)
  have hb2 : toNanos t % d < d := Int.emod_lt_of_pos _ hd
  simp only [time_round]
  rw [if_neg (by omega), time_div_char t d ht1 ht2 hn1 hn2 hd hd2 hmul]
  rcases lt_or_ge (2 * (toNanos t % d)) d with h2 | h2
  · rw [if_pos ((tless_iff hb1 (by omega) (by omega) hd2).mpr h2), if_pos h2,
      time_add_char t _ hn1 hn2,
      show toNanos t + -(toNanos t % d) = toNanos t - toNanos t % d from by ring]
  · rw [if_neg fun hc => absurd ((tless_iff hb1 (by omega) (by omega) hd2).mp hc) (by omega),
      if_neg (not_lt.mpr h2), time_add_char t _ hn1 hn2]

/-- `time_round` fixes instants that sit exactly on the grid (stated over
the div/mod splitting of a total nanosecond count `N` divisible by `d`). -/
lemma time_round_multiple (N d : Int) (hd : 0 < d) (hd2 : d < 9223372036854775808)
    (hmul : d.tmod 1000000000 = 0) (hdvd : d ∣ N)
    (h1 : -9223372036854775808 < N / 1000000000) (h2 : N / 1000000000 < 9223372036854775808) :
    time_round ⟨wrap64 (N / 1000000000), N % 1000000000⟩ d =
      ⟨wrap64 (N / 1000000000), N % 1000000000⟩ := by
  have e1 : wrap64 (N / 1000000000) = N / 1000000000 := wrap64_eq_self _ (by omega) (by omega)
  rw [e1]
  have hn1 : 0 ≤ N % 1000000000 := Int.emod_nonneg _ (by norm_num)
  have hn2 : N % 1000000000 < 1000000000 := Int.emod_lt_of_pos _ (by norm_num)
  have htN : toNanos ⟨N / 1000000000, N % 1000000000⟩ = N := by
    simp only [toNanos]
    have := Int.ediv_add_emod N 1000000000
    omega
  rw [time_round_char ⟨N / 1000000000, N % 1000000000⟩ d h1 h2 hn1 hn2 hd hd2 hmul, htN]
  have hz : N % d = 0 := Int.emod_eq_zero_of_dvd hdvd
  rw [hz, if_pos (by omega), show N - 0 = N from by ring, e1]

/-- Claim C5 (amended): `time_round` is idempotent for every valid instant
that sits at least one grid step plus one second away from the `int64_t`
boundaries of the seconds field (for `d ≤ 0` and for grids that are not
whole seconds the rounding is the identity, so no margin is needed there).
The margin is forced by the counterexample `claim_C5_counterexample`, where
rounding wraps past the end of the representable range. -/
theorem claim_C5 (t : Time) (d : Int)
    (ht1 : -9223372036854775808 ≤ t.sec) (ht2 : t.sec < 9223372036854775808)
    (hn1 : 0 ≤ t.nsec) (hn2 : t.nsec < 1000000000)
    (hd3 : -9223372036854775808 ≤ d) (hd2 : d < 9223372036854775808)
    (hsafe : 0 < d → -9223372036854775808 + d.tdiv 1000000000 + 2 ≤ t.sec ∧
      t.sec ≤ 9223372036854775807 - d.tdiv 1000000000 - 2) :
    time_round (time_round t d) d = time_round t d := by
  rcases le_or_lt d 0 with hd | hd
  · have h : time_round t d = t := by
      simp only [time_round]
      rw [if_pos hd]
    rw [h, h]
  rcases eq_or_ne (d.tmod 1000000000) 0 with hm | hm
  case inr =>
    have h := time_round_of_nonmult t d ht1 ht2 hn1 hn2 hd hd2 hm
    rw [h, h]
  obtain ⟨hs1, hs2⟩ := hsafe hd
  obtain ⟨hc1, hc2, hc3, hc4, hc5⟩ := tmod_char d 1000000000 (by norm_num)
  have hdeq : d = 1000000000 * d.tdiv 1000000000 := by omega
  have hd1pos : 0 < d.tdiv 1000000000 := by omega
  have hMdef : toNanos t = t.sec * 1000000000 + t.nsec := rfl
  have hb1 : 0 ≤ toNanos t % d := Int.emod_nonneg _ (by omega)
  have hb2 : toNanos t % d < d := Int.emod_lt_of_pos _ hd
  have hdivM := Int.ediv_add_emod (toNanos t) d
  rw [time_round_char t d (by omega) ht2 hn1 hn2 hd hd2 hm]
  rcases lt_or_ge (2 * (toNanos t % d)) d with h2 | h2
  · rw [if_pos h2]
    refine time_round_multiple _ d hd hd2 hm ⟨toNanos t / d, by omega⟩ ?_ ?_ <;> omega
  · rw [if_neg (not_lt.mpr h2)]
    have hr : d * (toNanos t / d + 1) = d * (toNanos t / d) + d := by ring
    refine time_round_multiple _ d hd hd2 hm ⟨toNanos t / d + 1, by omega⟩ ?_ ?_ <;> omega

/-- Counterexample to claim C5 as stated: at t = {INT64_MAX, 6*10^8} with a
3-second grid, rounding up wraps the seconds field past INT64_MAX, and the
wrapped instant is no longer on the grid, so a second rounding moves it. -/
theorem claim_C5_counterexample :
    time_round (time_round ⟨9223372036854775807, 600000000⟩ 3000000000) 3000000000 ≠
      time_round ⟨9223372036854775807, 600000000⟩ 3000000000 := by
  decide

/-- Witness for claim C5 at a concrete instant and grid. -/
theorem claim_C5_witness :
    time_round (time_round ⟨12345, 600000000⟩ 3000000000) 3000000000 =
      time_round ⟨12345, 600000000⟩ 3000000000 :=
  claim_C5 ⟨12345, 600000000⟩ 3000000000 (by decide) (by decide) (by decide) (by decide)
    (by decide) (by decide) (by decide)

end Vaqt
